import Mathlib

/-!
# Verification of the schedule status / alert engine (Cloudflare worker bot)

Shallow embedding of the core of `src/worker.js`: the HTML time-range
extraction, the schedule normalizer, the status evaluator, the local-time
projection, the per-subscription notification decision
(`processOneSubscription`), the cron dispatch loop (`runCronAlerts`) and the
subscription store writer (`upsertSubscription`).

Modeling conventions:
* JS numbers holding millisecond timestamps and minute counts are modeled as
  `Int`; `Math.floor(x / k)` on such values is `Int.fdiv x k`.
* `Date.now()` is passed in as an explicit argument wherever the source reads
  the clock.
* The environment object is a partial map from variable names to the numeric
  values `envNum` would accept; `envNum` returns the default otherwise.
* All I/O (HTTP fetch, KV reads and writes, outbound chat messages) is made
  explicit: fetch outcomes are inputs, and the result of a dispatch records
  the messages sent and the KV writes performed.  A thrown JS exception is an
  `Except.error`.
* Strings reaching `toMin` always have the shape `dd:dd` produced by the
  extraction regexes; the `Number`-returns-NaN paths for other shapes are not
  modeled (they are unreachable from the extraction pipeline).
* Character positions stand in for JS string indices (the inputs of interest
  are ASCII, where the two coincide).
-/

namespace Worker

/-! ## Environment -/

/-- The worker environment: a partial map from env-var names to the finite
numeric values `envNum` accepts (anything else yields the default). -/
def Env : Type := String → Option Int

/-- `envNum(env, name, def)` from worker.js. -/
def envNum (env : Env) (name : String) (d : Int) : Int := (env name).getD d

def uaOffsetMin (env : Env) : Int := envNum env "UA_TZ_OFFSET_MIN" 120

def alertMinutesBefore (env : Env) : Int := envNum env "ALERT_MIN_BEFORE" 20

def alertWindowMin (env : Env) : Int := envNum env "ALERT_WINDOW_MIN" 6

def alertMaxPerCron (env : Env) : Int := envNum env "ALERT_MAX_PER_CRON" 300

/-! ## Time helpers -/

/-- Minute-of-day of a millisecond timestamp, as computed by
`d.getUTCHours() * 60 + d.getUTCMinutes()` on a JS `Date`. -/
def jsMinuteOfDay (ms : Int) : Int := (ms.fdiv 60000) % 1440

/-- The clock snapshot produced by `uaLocalNow`. -/
structure NowInfo where
  nowUtcMs : Int
  localMs : Int
  offMin : Int
  minutes : Int
deriving DecidableEq, Repr

/-- `uaLocalNow(env)` from worker.js, with `Date.now()` passed explicitly. -/
def uaLocalNow (env : Env) (nowUtcMs : Int) : NowInfo :=
  let offMin := uaOffsetMin env
  let localMs := nowUtcMs + offMin * 60000
  { nowUtcMs := nowUtcMs, localMs := localMs, offMin := offMin,
    minutes := jsMinuteOfDay localMs }

/-- `localDayStartMs(localMs)` from worker.js:
`Math.floor(localMs / 86_400_000) * 86_400_000`. -/
def localDayStartMs (localMs : Int) : Int := (localMs.fdiv 86400000) * 86400000

/-- `fmtDelta(min)` from worker.js. -/
def fmtDelta (min : Int) : String :=
  let m := (max 0 min).toNat
  toString (m / 60) ++ " год " ++ toString (m % 60) ++ " хв"

/-! ## Schedule blocks -/

/-- A raw schedule block as produced by the extraction stage:
`{start, end, on}` with `on ∈ {true, false, null}`. -/
structure Block where
  start : String
  end_ : String
  on_ : Option Bool
deriving DecidableEq, Repr

/-- A normalized block `{...b, startMin, endMin}`. -/
structure NBlock where
  start : String
  end_ : String
  on_ : Option Bool
  startMin : Int
  endMin : Int
deriving DecidableEq, Repr

/-- JS `Number` on the digit strings produced by the time regex
(`Number("07") = 7`, `Number("") = 0`); non-digit inputs, where JS would give
`NaN`, do not occur in the pipeline and are mapped to 0. -/
def jsNum (cs : List Char) : Int :=
  if cs ≠ [] ∧ cs.all (fun c => c.isDigit) then
    cs.foldl (fun a c => a * 10 + ((c.toNat - 48 : Nat) : Int)) 0
  else 0

/-- JS `split(":")`, realized on the character list. -/
def splitColon : List Char → List (List Char)
  | [] => [[]]
  | c :: cs =>
    match splitColon cs with
    | [] => [[]]
    | h :: t => if c = ':' then [] :: h :: t else (c :: h) :: t

/-- `toMin(t)` from worker.js: `const [h, m] = String(t).split(":").map(Number);
return h * 60 + m;`.  Inputs always have two `:`-separated digit fields. -/
def toMin (t : String) : Int :=
  match splitColon t.toList with
  | h :: m :: _ => jsNum h * 60 + jsNum m
  | _ => 0

/-- `normalizeBlock(b)` from worker.js. -/
def normalizeBlock (b : Block) : NBlock :=
  let startMin := toMin b.start
  let endMin0 := toMin b.end_
  { start := b.start, end_ := b.end_, on_ := b.on_,
    startMin := startMin,
    endMin := if endMin0 < startMin then endMin0 + 24 * 60 else endMin0 }

/-- `findCurrentBlock(blocks, nowMin)` from worker.js. -/
def findCurrentBlock : List NBlock → Int → Option NBlock
  | [], _ => none
  | b :: bs, nowMin =>
    if b.startMin ≤ nowMin ∧ nowMin < b.endMin then some b
    else findCurrentBlock bs nowMin

/-- `findNextBlock(blocks, nowMin)` from worker.js. -/
def findNextBlock : List NBlock → Int → Option NBlock
  | [], _ => none
  | b :: bs, nowMin =>
    if nowMin < b.startMin then some b else findNextBlock bs nowMin

/-! ## HTML extraction (`detectOnOff`, `extractLiItems`, `extractTimeOnly`)

The two regex scans of `extractLiItems` are realized as character-level
scanners.  The patterns involved have disjoint character classes at every
choice point, so greedy matching with no backtracking is exact.  A fuel
argument (initialized to the input length, which every scan step strictly
decreases by at least one position) makes the loops structurally
terminating without changing their meaning. -/

/-- JS `\s` on the inputs of interest (ASCII whitespace forms). -/
def isJsSpace (c : Char) : Bool :=
  c = ' ' || c = '\t' || c = '\n' || c = '\r' || c = '\x0b' || c = '\x0c'

/-- JS `\w`, i.e. `[A-Za-z0-9_]`. -/
def isWordChar (c : Char) : Bool := c.isAlpha || c.isDigit || c = '_'

/-- The separators admitted by the `[-_ ]?` pieces of the marker regexes. -/
def isSepChar (c : Char) : Bool := c = '-' || c = '_' || c = ' '

/-- Literal prefix match; returns the remaining input on success. -/
def matchLit : List Char → List Char → Option (List Char)
  | [], l => some l
  | _ :: _, [] => none
  | p :: ps, c :: cs => if c = p then matchLit ps cs else none

/-- Match the remaining keyword pieces, each preceded by an optional
separator (`[-_ ]?`).  Pieces begin with letters, so consuming an available
separator is the only viable greedy choice. -/
def matchKwTail : List (List Char) → List Char → Option (List Char)
  | [], l => some l
  | p :: ps, l =>
    let l1 := match l with
      | c :: cs => if isSepChar c then cs else c :: cs
      | [] => []
    (matchLit p l1).bind (matchKwTail ps)

/-- JS `\b` after a word character: the next character is absent or
a non-word character. -/
def boundaryOk : List Char → Bool
  | [] => true
  | c :: _ => ¬ isWordChar c

/-- Does the keyword pattern (pieces joined by `[-_ ]?`, ending in `\b`)
match at the head of `l`? -/
def matchKwAt (pieces : List (List Char)) (l : List Char) : Bool :=
  match pieces with
  | [] => boundaryOk l
  | p :: ps =>
    match (matchLit p l).bind (matchKwTail ps) with
    | some rest => boundaryOk rest
    | none => false

/-- Does the keyword pattern match anywhere in `l`? -/
def kwOccurs (pieces : List (List Char)) : List Char → Bool
  | [] => matchKwAt pieces []
  | c :: cs => matchKwAt pieces (c :: cs) || kwOccurs pieces cs

def kwPat (xs : List String) : List (List Char) := xs.map String.toList

/-- The branches of the OFF marker regex in `detectOnOff`. -/
def offPatterns : List (List (List Char)) :=
  [kwPat ["icon", "off"], kwPat ["status", "off"], kwPat ["light", "off"],
   kwPat ["no", "light"], kwPat ["svitlo", "off"], kwPat ["bolt", "slash"],
   kwPat ["fa-bolt-slash"], kwPat ["power", "off"], kwPat ["blackout"]]

/-- The branches of the ON marker regex in `detectOnOff`. -/
def onPatterns : List (List (List Char)) :=
  [kwPat ["icon", "on"], kwPat ["status", "on"], kwPat ["light", "on"],
   kwPat ["has", "light"], kwPat ["svitlo", "on"], kwPat ["fa-lightbulb"],
   kwPat ["lightbulb"]]

/-- `detectOnOff(fragment)` from worker.js: lowercase, test the OFF markers
first, then the ON markers (`Char.toLower` covers the ASCII marker
vocabulary). -/
def detectOnOff (fragment : String) : Option Bool :=
  let t := fragment.toList.map Char.toLower
  if offPatterns.any (fun p => kwOccurs p t) then some false
  else if onPatterns.any (fun p => kwOccurs p t) then some true
  else none

/-- Count leading `\s` characters; return the count and the rest. -/
def takeSpaces : List Char → Nat × List Char
  | [] => (0, [])
  | c :: cs =>
    if isJsSpace c then
      let r := takeSpaces cs
      (r.1 + 1, r.2)
    else (0, c :: cs)

/-- Match `(\d{2}:\d{2})\s*[–-]\s*(\d{2}:\d{2})` at the head of the input;
returns the two captures and the length of the whole match.  The classes
`\d`, `\s` and `[–-]` are pairwise disjoint, so greedy matching is exact. -/
def matchTime (l : List Char) : Option (String × String × Nat) :=
  match l with
  | a :: b :: ':' :: c :: d :: rest =>
    if a.isDigit ∧ b.isDigit ∧ c.isDigit ∧ d.isDigit then
      let sp1 := takeSpaces rest
      match sp1.2 with
      | dash :: r2 =>
        if dash = '–' ∨ dash = '-' then
          let sp2 := takeSpaces r2
          match sp2.2 with
          | e :: f :: ':' :: g :: h :: _ =>
            if e.isDigit ∧ f.isDigit ∧ g.isDigit ∧ h.isDigit then
              some (String.mk [a, b, ':', c, d], String.mk [e, f, ':', g, h],
                5 + sp1.1 + 1 + sp2.1 + 5)
            else none
          | _ => none
        else none
      | [] => none
    else none
  | _ => none

/-- One raw match of the global time regex: position of the match plus the
two captured times. -/
structure TimeMatch where
  pos : Nat
  s1 : String
  s2 : String
deriving DecidableEq, Repr

/-- Successive matches of the global regex
`(\d{2}:\d{2})\s*[–-]\s*(\d{2}:\d{2})` (each search resumes at the end of
the previous match, as `exec`/`matchAll` do). -/
def scanTimesAux : Nat → List Char → Nat → List TimeMatch
  | 0, _, _ => []
  | _, [], _ => []
  | fuel + 1, c :: cs, pos =>
    match matchTime (c :: cs) with
    | some (s1, s2, len) =>
      ⟨pos, s1, s2⟩ :: scanTimesAux fuel (List.drop (len - 1) cs) (pos + len)
    | none => scanTimesAux fuel cs (pos + 1)

def scanTimes (s : List Char) : List TimeMatch := scanTimesAux s.length s 0

/-- Case-insensitive literal prefix match (pattern given in lowercase). -/
def startsWithCi : List Char → List Char → Option (List Char)
  | [], l => some l
  | _ :: _, [] => none
  | p :: ps, c :: cs => if c.toLower = p then startsWithCi ps cs else none

/-- `[^>]*>`: skip to just past the first `>`. -/
def skipToGt : List Char → Option (List Char)
  | [] => none
  | c :: cs => if c = '>' then some cs else skipToGt cs

/-- Lazy `([\s\S]*?)<\/li>`: split at the first (case-insensitive) `</li>`,
returning the inner text and the input after the closing tag. -/
def splitAtClose : List Char → Option (List Char × List Char)
  | [] => none
  | c :: cs =>
    match startsWithCi "</li>".toList (c :: cs) with
    | some rest => some ([], rest)
    | none => (splitAtClose cs).map (fun p => (c :: p.1, p.2))

/-- `<li[^>]*>([\s\S]*?)<\/li>` (case-insensitive) at the head of the input:
returns the inner text and the input after the match. -/
def matchLiAt (l : List Char) : Option (List Char × List Char) :=
  match startsWithCi "<li".toList l with
  | none => none
  | some r1 =>
    match skipToGt r1 with
    | none => none
    | some r2 => splitAtClose r2

/-- First match of the (non-global) time regex inside a fragment. -/
def firstTimeIn : List Char → Option (String × String)
  | [] => none
  | c :: cs =>
    match matchTime (c :: cs) with
    | some (s1, s2, _) => some (s1, s2)
    | none => firstTimeIn cs

/-- The `<li>` pass of `extractLiItems`: for each list item containing a
time pair, emit `{start, end, on}` classified from the inner markup. -/
def extractLiLoop : Nat → List Char → List Block
  | 0, _ => []
  | _, [] => []
  | fuel + 1, c :: cs =>
    match matchLiAt (c :: cs) with
    | some (inner, rest) =>
      (match firstTimeIn inner with
       | some (s1, s2) => [⟨s1, s2, detectOnOff (String.mk inner)⟩]
       | none => []) ++ extractLiLoop fuel rest
    | none => extractLiLoop fuel cs

/-- Fragment `s.slice(Math.max(0, pos - 160), Math.min(s.length, pos + 260))`
around a loose-scan match. -/
def fragAt (s : List Char) (pos : Nat) : List Char :=
  let a := pos - 160
  (s.drop a).take (pos + 260 - a)

/-- One loose-scan match enriched with its inferred state. -/
structure LooseM where
  pos : Nat
  s1 : String
  s2 : String
  on_ : Option Bool
deriving DecidableEq, Repr

/-- The dedup signature `` `${start}-${end}-${on}` ``. -/
def sigKey (m : LooseM) : String :=
  m.s1 ++ "-" ++ m.s2 ++ "-" ++
    (match m.on_ with
     | some true => "true"
     | some false => "false"
     | none => "null")

def blockOf (m : LooseM) : Block := ⟨m.s1, m.s2, m.on_⟩

/-- The near-duplicate suppression of the loose scan: state is the signature
of the last examined match (`lastKey`, initially `null`) and the position of
the last kept match (`lastPos`, initially `-9999`); a match whose signature
equals `lastKey` and whose position is within 40 of `lastPos` is skipped. -/
def dedupGo : Option String → Int → List LooseM → List Block
  | _, _, [] => []
  | lastKey, lastPos, m :: ms =>
    if some (sigKey m) = lastKey ∧ (m.pos : Int) - lastPos < 40 then
      dedupGo lastKey lastPos ms
    else blockOf m :: dedupGo (some (sigKey m)) (m.pos : Int) ms

/-- All raw matches of the loose scan with their inferred states. -/
def looseMatches (s : List Char) : List LooseM :=
  (scanTimes s).map (fun t => ⟨t.pos, t.s1, t.s2,
    detectOnOff (String.mk (fragAt s t.pos))⟩)

/-- The loose/extended scan of `extractLiItems` (its second phase). -/
def looseScan (html : String) : List Block :=
  dedupGo none (-9999) (looseMatches html.toList)

/-- `extractLiItems(html)` from worker.js: the `<li>` pass, falling back to
the loose scan with near-duplicate suppression. -/
def extractLiItems (html : String) : List Block :=
  let s := html.toList
  let liBlocks := extractLiLoop s.length s
  if liBlocks ≠ [] then liBlocks else looseScan html

/-- `extractTimeOnly(html)` from worker.js. -/
def extractTimeOnly (html : String) : List Block :=
  (scanTimes html.toList).map (fun m => ⟨m.s1, m.s2, none⟩)

/-- The pure tail of `fetchScheduleBlocks`: the blocks computed from a
successfully fetched page,
`(items.length ? items : extractTimeOnly(html)).map(normalizeBlock)`. -/
def fetchedBlocks (html : String) : List NBlock :=
  let items := extractLiItems html
  (if items ≠ [] then items else extractTimeOnly html).map normalizeBlock

/-- Result of `computeStatus`. -/
structure StatusResult where
  statusLine : String
  nextLine : String
  nextChangeMin : Option Int
  nextChangeType : Option String
  nextChangeAtText : Option String
deriving DecidableEq, Repr

/-- `computeStatus(blocks, nowMin)` from worker.js. -/
def computeStatus (blocks : List NBlock) (nowMin : Int) : StatusResult :=
  match findCurrentBlock blocks nowMin with
  | some current =>
    match current.on_ with
    | some true =>
      { statusLine := "🟢 ЗАРАЗ Є СВІТЛО",
        nextLine := "⏰ Вимкнуть о " ++ current.end_ ++ "\n⏳ Через " ++
          fmtDelta (current.endMin - nowMin),
        nextChangeMin := some current.endMin, nextChangeType := some "off",
        nextChangeAtText := some current.end_ }
    | some false =>
      { statusLine := "🔴 ЗАРАЗ НЕМАЄ СВІТЛА",
        nextLine := "⏰ Увімкнуть о " ++ current.end_ ++ "\n⏳ Через " ++
          fmtDelta (current.endMin - nowMin),
        nextChangeMin := some current.endMin, nextChangeType := some "on",
        nextChangeAtText := some current.end_ }
    | none =>
      { statusLine := "🟡 ЗАРАЗ: невідомо",
        nextLine := "⏳ До " ++ current.end_ ++ ": " ++
          fmtDelta (current.endMin - nowMin),
        nextChangeMin := some current.endMin, nextChangeType := some "unknown",
        nextChangeAtText := some current.end_ }
  | none =>
    match findNextBlock blocks nowMin with
    | some next =>
      { statusLine := "🔴 ЗАРАЗ НЕМА СВІТЛА",
        nextLine := "⏰ Наступна зміна о " ++ next.start ++ "\n⏳ Через " ++
          fmtDelta (next.startMin - nowMin),
        nextChangeMin := some next.startMin,
        nextChangeType := some (match next.on_ with
          | some true => "on"
          | some false => "off"
          | none => "unknown"),
        nextChangeAtText := some next.start }
    | none =>
      { statusLine := "❓ Нема даних", nextLine := "",
        nextChangeMin := none, nextChangeType := none,
        nextChangeAtText := none }

/-! ## Subscriptions and the notification dispatcher -/

/-- A parsed subscription record, as written by `upsertSubscription`. -/
structure SubRec where
  token : String
  chatId : String
  url : String
  cityName : String
  queueName : String
  minutesBefore : Int
  enabled : Bool
  lastNotifiedEventUtcMs : Int
  updatedAt : Int
deriving DecidableEq, Repr

/-- `subKey(token, chatId, urlHash)` from worker.js. -/
def subKey (token chatId urlHash : String) : String :=
  "sub:" ++ token ++ ":" ++ chatId ++ ":" ++ urlHash

/-- Outcome of `fetchScheduleBlocks` when it returns (rather than throws):
`ok` and the normalized block list. -/
structure FetchRes where
  ok : Bool
  blocks : List NBlock
deriving DecidableEq, Repr

/-- An outbound `sendMessage` call (token, chat id, text). -/
structure SendReq where
  token : String
  chatId : String
  text : String
deriving DecidableEq, Repr

/-- Observable outcome of one `processOneSubscription` run: the returned
`sent` flag, the messages sent, and the KV writes performed. -/
structure ProcResult where
  sent : Bool
  sends : List SendReq
  puts : List (String × SubRec)
deriving DecidableEq, Repr

/-- `String(n).padStart(2, "0")` for the hour/minute fields (0 ≤ n < 60). -/
def pad2 (n : Int) : String :=
  if 0 ≤ n ∧ n < 10 then "0" ++ toString n else toString n

/-- The absolute event time of lines 1399–1400 of worker.js:
`eventLocalMs = localDayStartMs(now.localMs) + nextChangeMin * 60_000;
eventUtcMs = eventLocalMs - now.offMin * 60_000`. -/
def eventUtcMsOf (now : NowInfo) (nextChangeMin : Int) : Int :=
  localDayStartMs now.localMs + nextChangeMin * 60000 - now.offMin * 60000

/-- `processOneSubscription(env, rec, now)` from worker.js.  The SHA-1 used
for the KV key is an opaque crypto call, passed in as `hash`; the outcome of
`fetchScheduleBlocks` is the `fetched` input (`Except.error` = the fetch
threw, which propagates).  `rec` is the `jparse` result (`none` = `null`). -/
def processOneSubscription (hash : String → String) (env : Env)
    (rec? : Option SubRec) (now : NowInfo)
    (fetched : Except Unit FetchRes) : Except Unit ProcResult :=
  match rec? with
  | none => .ok ⟨false, [], []⟩
  | some r =>
    if r.enabled = true then
      match fetched with
      | .error e => .error e
      | .ok fres =>
        if fres.ok = false ∨ fres.blocks = [] then .ok ⟨false, [], []⟩
        else
          let nowMin := now.minutes
          let meta := computeStatus fres.blocks nowMin
          match meta.nextChangeMin with
          | none => .ok ⟨false, [], []⟩
          | some ncm =>
            let eventUtcMs := eventUtcMsOf now ncm
            let minsBefore :=
              if r.minutesBefore = 0 then alertMinutesBefore env
              else r.minutesBefore
            let alertUtcMs := eventUtcMs - minsBefore * 60000
            let windowMs := alertWindowMin env * 60000
            let last := r.lastNotifiedEventUtcMs
            if last ≠ 0 ∧ last ≥ eventUtcMs then .ok ⟨false, [], []⟩
            else if alertUtcMs ≤ now.nowUtcMs ∧
                now.nowUtcMs < alertUtcMs + windowMs then
              let what :=
                if meta.nextChangeType = some "on" then "увімкнення"
                else if meta.nextChangeType = some "off" then "вимкнення"
                else "зміна"
              let lm := eventUtcMs + now.offMin * 60000
              let atText := pad2 ((lm.fdiv 3600000) % 24) ++ ":" ++
                pad2 ((lm.fdiv 60000) % 60)
              let msg := "🔔 АЛЕРТ: через " ++ toString minsBefore ++
                " хв\n\n📍 " ++ r.cityName ++ "\n🔌 " ++ r.queueName ++
                "\n\n⏰ " ++ what ++ " о " ++ atText
              let updated : SubRec :=
                { r with lastNotifiedEventUtcMs := eventUtcMs,
                         updatedAt := now.nowUtcMs }
              .ok ⟨true, [⟨r.token, r.chatId, msg⟩],
                [(subKey r.token r.chatId (hash r.url), updated)]⟩
            else .ok ⟨false, [], []⟩
    else .ok ⟨false, [], []⟩

/-- The `sent` flag of a dispatch outcome (`false` if it threw). -/
def sentOf (e : Except Unit ProcResult) : Bool :=
  match e with
  | .ok r => r.sent
  | .error _ => false

/-- The messages sent by a dispatch outcome. -/
def sendsOf (e : Except Unit ProcResult) : List SendReq :=
  match e with
  | .ok r => r.sends
  | .error _ => []

/-- Counters and trace of one `runCronAlerts` invocation.  `processedKeys`
records, in order, the keys whose records were handed to
`processOneSubscription` (a trace the loop determines, recorded for
specification purposes). -/
structure CronRes where
  processed : Nat
  sent : Nat
  processedKeys : List String
deriving DecidableEq, Repr

/-- The loop body of `runCronAlerts`.  `store` maps a listed key to its
parsed record (`none` = `STATE_KV.get` returned nothing, which is skipped
without counting; `some none` = raw present but `jparse` gave `null`).
`fetchO` gives the outcome of `fetchScheduleBlocks` for a record URL.  The
`try`/`catch` around the call is the `.error` case, which is logged and
skipped. -/
def runCronLoop (hash : String → String) (env : Env) (now : NowInfo)
    (store : String → Option (Option SubRec))
    (fetchO : String → Except Unit FetchRes) :
    List String → Nat → Nat → CronRes
  | [], p, s => ⟨p, s, []⟩
  | k :: ks, p, s =>
    if (p : Int) ≥ alertMaxPerCron env then ⟨p, s, []⟩
    else
      match store k with
      | none => runCronLoop hash env now store fetchO ks p s
      | some rec? =>
        let fres := match rec? with
          | some r => fetchO r.url
          | none => .ok ⟨false, []⟩
        let res := processOneSubscription hash env rec? now fres
        let s1 := if sentOf res then s + 1 else s
        let rest := runCronLoop hash env now store fetchO ks (p + 1) s1
        ⟨rest.processed, rest.sent, k :: rest.processedKeys⟩

/-- `runCronAlerts(env)` from worker.js, over an explicit key listing. -/
def runCronAlerts (hash : String → String) (env : Env) (now : NowInfo)
    (store : String → Option (Option SubRec))
    (fetchO : String → Except Unit FetchRes) (keys : List String) : CronRes :=
  runCronLoop hash env now store fetchO keys 0 0

/-- A selected queue `{cityName, queueName, url}`. -/
structure Sel where
  cityName : String
  queueName : String
  url : String
deriving DecidableEq, Repr

/-- Result of `upsertSubscription`: the updated store view plus the returned
`{key, enabled}`. -/
structure UpsertRes where
  store : String → Option SubRec
  key : String
  enabled : Bool

/-- `upsertSubscription(env, token, chatId, sel, enabled)` from worker.js,
over an explicit store; `nowMs` is `Date.now()` at the call. -/
def upsertSubscription (hash : String → String) (env : Env)
    (token chatId : String) (sel : Sel) (enabled : Bool) (nowMs : Int)
    (store : String → Option SubRec) : UpsertRes :=
  let minutesBefore := alertMinutesBefore env
  let key := subKey token chatId (hash sel.url)
  if enabled = false then
    ⟨fun k => if k = key then none else store k, key, false⟩
  else
    let newRec : SubRec :=
      { token := token, chatId := chatId, url := sel.url,
        cityName := sel.cityName, queueName := sel.queueName,
        minutesBefore := minutesBefore, enabled := true,
        lastNotifiedEventUtcMs := 0, updatedAt := nowMs }
    ⟨fun k => if k = key then some newRec else store k, key, true⟩

/-! ## Helper lemmas -/

lemma foldl_digits_nonneg :
    ∀ (cs : List Char) (a : Int), 0 ≤ a →
      0 ≤ cs.foldl (fun a c => a * 10 + ((c.toNat - 48 : Nat) : Int)) a
  | [], _, h => h
  | c :: cs, a, h =>
    foldl_digits_nonneg cs (a * 10 + ((c.toNat - 48 : Nat) : Int)) (by omega)

lemma jsNum_nonneg (cs : List Char) : 0 ≤ jsNum cs := by
  unfold jsNum
  split
  · exact foldl_digits_nonneg _ 0 le_rfl
  · exact le_rfl

lemma toMin_nonneg (t : String) : 0 ≤ toMin t := by
  unfold toMin
  split
  · exact add_nonneg (mul_nonneg (jsNum_nonneg _) (by norm_num)) (jsNum_nonneg _)
  · exact le_rfl

lemma findCurrentBlock_sound :
    ∀ {bs : List NBlock} {m : Int} {b : NBlock},
      findCurrentBlock bs m = some b → b.startMin ≤ m ∧ m < b.endMin := by
  intro bs
  induction bs with
  | nil => intro m b h; simp [findCurrentBlock] at h
  | cons x xs ih =>
    intro m b h
    rw [findCurrentBlock] at h
    split at h
    · cases h; assumption
    · exact ih h

lemma findNextBlock_sound :
    ∀ {bs : List NBlock} {m : Int} {b : NBlock},
      findNextBlock bs m = some b → m < b.startMin := by
  intro bs
  induction bs with
  | nil => intro m b h; simp [findNextBlock] at h
  | cons x xs ih =>
    intro m b h
    rw [findNextBlock] at h
    split at h
    · cases h; assumption
    · exact ih h

/-- In a chronologically sorted, non-overlapping list, the first block
containing `m` is the unique containing block. -/
lemma findCurrentBlock_sorted :
    ∀ {bs : List NBlock} {m : Int} {b : NBlock},
      bs.Pairwise (fun x y => x.endMin ≤ y.startMin) →
      b ∈ bs → b.startMin ≤ m → m < b.endMin →
      findCurrentBlock bs m = some b := by
  intro bs
  induction bs with
  | nil => intro m b _ hb; simp at hb
  | cons x xs ih =>
    intro m b hp hb h1 h2
    rw [List.pairwise_cons] at hp
    rw [findCurrentBlock]
    rcases List.mem_cons.mp hb with rfl | hbx
    · rw [if_pos ⟨h1, h2⟩]
    · have hxb : x.endMin ≤ b.startMin := hp.1 b hbx
      rw [if_neg (by push_neg; intro _; omega)]
      exact ih hp.2 hbx h1 h2

lemma computeStatus_nextChangeMin_gt {blocks : List NBlock} {m n : Int}
    (h : (computeStatus blocks m).nextChangeMin = some n) : m < n := by
  unfold computeStatus at h
  split at h
  · rename_i current heq
    have hcs := findCurrentBlock_sound heq
    split at h <;> simp at h <;> omega
  · rename_i heq
    split at h
    · rename_i next heq2
      have hns := findNextBlock_sound heq2
      simp at h
      omega
    · simp at h

/-- The computed event instant is strictly in the future of the clock
reading it was derived from. -/
lemma eventUtcMsOf_gt_now (env : Env) (u n : Int)
    (h : (uaLocalNow env u).minutes < n) :
    (uaLocalNow env u).nowUtcMs < eventUtcMsOf (uaLocalNow env u) n := by
  simp only [uaLocalNow, eventUtcMsOf, jsMinuteOfDay, localDayStartMs] at h ⊢
  rw [Int.fdiv_eq_ediv _ (by norm_num)] at h
  rw [Int.fdiv_eq_ediv _ (by norm_num)]
  omega

/-! ## C3: current block determines the next change -/

/-- C3: for a chronologically sorted, non-overlapping block list and any
`nowMin` inside `[b.startMin, b.endMin)` for a block `b` of the list,
`computeStatus` reports `b` as current, sets `nextChangeMin` to `b.endMin`,
and sets `nextChangeType` to the negation of the state of `b` (`"unknown"`
exactly when the state of `b` is unknown). -/
theorem computeStatus_current_block (blocks : List NBlock) (b : NBlock)
    (m : Int) (hsort : blocks.Pairwise (fun x y => x.endMin ≤ y.startMin))
    (hb : b ∈ blocks) (h1 : b.startMin ≤ m) (h2 : m < b.endMin) :
    findCurrentBlock blocks m = some b ∧
    (computeStatus blocks m).nextChangeMin = some b.endMin ∧
    (computeStatus blocks m).nextChangeType = some
      (match b.on_ with
       | some true => "off"
       | some false => "on"
       | none => "unknown") := by
  have hf := findCurrentBlock_sorted hsort hb h1 h2
  refine ⟨hf, ?_, ?_⟩ <;>
    · unfold computeStatus
      split
      · rename_i current heq
        rw [hf] at heq
        cases heq
        split <;> rename_i hon <;> simp [hon]
      · rename_i heq
        rw [hf] at heq
        cases heq

theorem computeStatus_current_block_witness :
    ([⟨"08:00", "10:00", some false, 480, 600⟩,
      ⟨"10:00", "18:00", some true, 600, 1080⟩] :
        List NBlock).Pairwise (fun x y => x.endMin ≤ y.startMin) ∧
    findCurrentBlock
        [⟨"08:00", "10:00", some false, 480, 600⟩,
         ⟨"10:00", "18:00", some true, 600, 1080⟩] 590 =
      some ⟨"08:00", "10:00", some false, 480, 600⟩ ∧
    (computeStatus
        [⟨"08:00", "10:00", some false, 480, 600⟩,
         ⟨"10:00", "18:00", some true, 600, 1080⟩] 590).nextChangeMin =
      some 600 ∧
    (computeStatus
        [⟨"08:00", "10:00", some false, 480, 600⟩,
         ⟨"10:00", "18:00", some true, 600, 1080⟩] 590).nextChangeType =
      some "on" :=
  ⟨by decide,
   (computeStatus_current_block _ ⟨"08:00", "10:00", some false, 480, 600⟩ 590
      (by decide) (by decide) (by decide) (by decide)).1,
   (computeStatus_current_block _ ⟨"08:00", "10:00", some false, 480, 600⟩ 590
      (by decide) (by decide) (by decide) (by decide)).2.1,
   (computeStatus_current_block _ ⟨"08:00", "10:00", some false, 480, 600⟩ 590
      (by decide) (by decide) (by decide) (by decide)).2.2⟩

/-! ## C4: midnight wrap in the normalizer -/

/-- C4 counterexample: a block whose textual start and end coincide
normalizes to `endMin = startMin`, so `endMinute` is not strictly greater
than `startMinute` after normalization. -/
theorem normalizeBlock_equal_times_counterexample :
    (normalizeBlock ⟨"10:00", "10:00", none⟩).startMin = 600 ∧
    (normalizeBlock ⟨"10:00", "10:00", none⟩).endMin = 600 ∧
    ¬ ((normalizeBlock ⟨"10:00", "10:00", none⟩).startMin <
       (normalizeBlock ⟨"10:00", "10:00", none⟩).endMin) := by
  refine ⟨rfl, rfl, by decide⟩

/-- C4 (amended): the normalizer adds 1440 to the end minute exactly when
the textual end converts to fewer minutes than the textual start, and makes
no other adjustment; consequently, for blocks whose two times each denote
fewer than 1440 minutes, `endMinute ≥ startMinute` after normalization,
strictly whenever the two times denote different minutes. -/
theorem normalizeBlock_midnight_wrap (b : Block) :
    (normalizeBlock b).startMin = toMin b.start ∧
    (toMin b.end_ < toMin b.start →
      (normalizeBlock b).endMin = toMin b.end_ + 1440) ∧
    (¬ toMin b.end_ < toMin b.start →
      (normalizeBlock b).endMin = toMin b.end_) ∧
    (toMin b.start < 1440 → toMin b.end_ < 1440 →
      (normalizeBlock b).startMin ≤ (normalizeBlock b).endMin ∧
      (toMin b.end_ ≠ toMin b.start →
        (normalizeBlock b).startMin < (normalizeBlock b).endMin)) := by
  have hs := toMin_nonneg b.start
  have he := toMin_nonneg b.end_
  unfold normalizeBlock
  dsimp only
  split <;> refine ⟨rfl, ?_, ?_, ?_⟩ <;> intros <;> omega

theorem normalizeBlock_midnight_wrap_witness :
    toMin "01:00" < toMin "22:00" ∧
    (normalizeBlock ⟨"22:00", "01:00", none⟩).endMin = toMin "01:00" + 1440 ∧
    (normalizeBlock ⟨"22:00", "01:00", none⟩).startMin <
      (normalizeBlock ⟨"22:00", "01:00", none⟩).endMin :=
  ⟨by decide,
   (normalizeBlock_midnight_wrap ⟨"22:00", "01:00", none⟩).2.1 (by decide),
   ((normalizeBlock_midnight_wrap ⟨"22:00", "01:00", none⟩).2.2.2
      (by decide) (by decide)).2 (by decide)⟩

/-! ## C5: local-minute round trip -/

/-- C5: projecting a local minute-of-day `m` to an absolute UTC instant via
`localDayStartMs(now.localMs) + m*60000 - offsetMinutes*60000` and mapping
back through the minute-of-day of the offset-shifted instant recovers `m`,
for every configured offset (negative and non-multiple-of-60 included) and
every clock reading. -/
theorem localMinute_round_trip (env : Env) (u m : Int)
    (h0 : 0 ≤ m) (h1 : m < 1440) :
    jsMinuteOfDay
      ((localDayStartMs (uaLocalNow env u).localMs + m * 60000 -
          (uaLocalNow env u).offMin * 60000) +
        (uaLocalNow env u).offMin * 60000) = m := by
  simp only [uaLocalNow, jsMinuteOfDay, localDayStartMs]
  rw [Int.fdiv_eq_ediv _ (by norm_num), Int.fdiv_eq_ediv _ (by norm_num)]
  omega

theorem localMinute_round_trip_witness :
    (0 : Int) ≤ 777 ∧ (777 : Int) < 1440 ∧
    jsMinuteOfDay
      ((localDayStartMs (uaLocalNow (fun n =>
          if n = "UA_TZ_OFFSET_MIN" then some (-37) else none) 123456789).localMs +
          777 * 60000 -
          (uaLocalNow (fun n =>
            if n = "UA_TZ_OFFSET_MIN" then some (-37) else none) 123456789).offMin *
            60000) +
        (uaLocalNow (fun n =>
          if n = "UA_TZ_OFFSET_MIN" then some (-37) else none) 123456789).offMin *
          60000) = 777 :=
  ⟨by decide, by decide,
   localMinute_round_trip (fun n =>
     if n = "UA_TZ_OFFSET_MIN" then some (-37) else none) 123456789 777
     (by decide) (by decide)⟩

/-! ## C6: fetch failure or zero blocks -/

/-- C6: if the schedule fetch reports failure or yields zero blocks, the
per-subscription evaluation returns `sent = false`, sends no message and
performs no store write; and `computeStatus` on an empty block list returns
the no-data status with `nextChangeMin` and `nextChangeType` absent. -/
theorem processOneSubscription_no_data_skips (hash : String → String)
    (env : Env) (rec? : Option SubRec) (now : NowInfo) (fres : FetchRes)
    (h : fres.ok = false ∨ fres.blocks = []) :
    processOneSubscription hash env rec? now (.ok fres) = .ok ⟨false, [], []⟩ ∧
    computeStatus [] now.minutes =
      ⟨"❓ Нема даних", "", none, none, none⟩ := by
  constructor
  · cases rec? with
    | none => rfl
    | some r =>
      unfold processOneSubscription
      rcases h with h | h <;> simp [h]
  · rfl

theorem processOneSubscription_no_data_skips_witness :
    ((⟨false, [⟨"x", "y", none, 0, 60⟩]⟩ : FetchRes).ok = false ∨
      (⟨false, [⟨"x", "y", none, 0, 60⟩]⟩ : FetchRes).blocks = []) ∧
    processOneSubscription (fun s => s) (fun _ => none)
        (some ⟨"t", "c", "u", "K", "Q", 20, true, 0, 0⟩)
        (uaLocalNow (fun _ => none) 6000000)
        (.ok ⟨false, [⟨"x", "y", none, 0, 60⟩]⟩) = .ok ⟨false, [], []⟩ :=
  ⟨Or.inl rfl,
   (processOneSubscription_no_data_skips (fun s => s) (fun _ => none)
      (some ⟨"t", "c", "u", "K", "Q", 20, true, 0, 0⟩)
      (uaLocalNow (fun _ => none) 6000000)
      ⟨false, [⟨"x", "y", none, 0, 60⟩]⟩ (Or.inl rfl)).1⟩

/-! ## C1: idempotence guard -/

/-- C1: whenever the stored watermark is at least the event time computed
for the next change, `processOneSubscription` returns `sent = false` and
sends no message — in particular when the watermark equals the just-computed
event time, whatever the position of the clock relative to the firing
window.  Clock instants are `Date.now()` values, hence nonnegative. -/
theorem processOneSubscription_watermark_guard (hash : String → String)
    (env : Env) (r : SubRec) (u : Int) (fres : FetchRes) (n : Int)
    (hu : 0 ≤ u)
    (hn : (computeStatus fres.blocks (uaLocalNow env u).minutes).nextChangeMin =
      some n)
    (hw : eventUtcMsOf (uaLocalNow env u) n ≤ r.lastNotifiedEventUtcMs) :
    processOneSubscription hash env (some r) (uaLocalNow env u) (.ok fres) =
      .ok ⟨false, [], []⟩ := by
  have hgt := eventUtcMsOf_gt_now env u n (computeStatus_nextChangeMin_gt hn)
  have hnow : (uaLocalNow env u).nowUtcMs = u := rfl
  have hguard : r.lastNotifiedEventUtcMs ≠ 0 ∧
      r.lastNotifiedEventUtcMs ≥ eventUtcMsOf (uaLocalNow env u) n :=
    ⟨by omega, hw⟩
  unfold processOneSubscription
  simp [hn, hguard]

def envD : Env := fun _ => none

def hashId : String → String := fun s => s

def blocksW : List NBlock := [⟨"03:00", "04:00", none, 180, 240⟩]

theorem processOneSubscription_watermark_guard_witness :
    (0 : Int) ≤ 6000000 ∧
    (computeStatus blocksW (uaLocalNow envD 6000000).minutes).nextChangeMin =
      some 240 ∧
    eventUtcMsOf (uaLocalNow envD 6000000) 240 = 7200000 ∧
    processOneSubscription hashId envD
        (some ⟨"t", "c", "u", "Kyiv", "Q", 20, true, 7200000, 0⟩)
        (uaLocalNow envD 6000000) (.ok ⟨true, blocksW⟩) =
      .ok ⟨false, [], []⟩ :=
  ⟨by decide, by decide, by decide,
   processOneSubscription_watermark_guard hashId envD
     ⟨"t", "c", "u", "Kyiv", "Q", 20, true, 7200000, 0⟩ 6000000
     ⟨true, blocksW⟩ 240 (by decide) (by decide) (by decide)⟩

/-! ## C2: firing window -/

/-- Evaluation of `processOneSubscription` once the enablement, fetch,
next-change and watermark guards all pass: the outcome is decided by the
firing-window test alone. -/
lemma processOneSubscription_eval (hash : String → String) (env : Env)
    (r : SubRec) (now : NowInfo) (fres : FetchRes) (n mB : Int)
    (hen : r.enabled = true)
    (hokF : ¬ (fres.ok = false ∨ fres.blocks = []))
    (hn : (computeStatus fres.blocks now.minutes).nextChangeMin = some n)
    (hguardF : ¬ (r.lastNotifiedEventUtcMs ≠ 0 ∧
        r.lastNotifiedEventUtcMs ≥ eventUtcMsOf now n))
    (hmB : mB = if r.minutesBefore = 0 then alertMinutesBefore env
      else r.minutesBefore) :
    (eventUtcMsOf now n - mB * 60000 ≤ now.nowUtcMs ∧
        now.nowUtcMs < eventUtcMsOf now n - mB * 60000 +
          alertWindowMin env * 60000 →
      ∃ msg puts, processOneSubscription hash env (some r) now (.ok fres) =
        .ok ⟨true, [msg], puts⟩) ∧
    (¬ (eventUtcMsOf now n - mB * 60000 ≤ now.nowUtcMs ∧
        now.nowUtcMs < eventUtcMsOf now n - mB * 60000 +
          alertWindowMin env * 60000) →
      processOneSubscription hash env (some r) now (.ok fres) =
        .ok ⟨false, [], []⟩) := by
  constructor <;> intro hwin <;> unfold processOneSubscription <;>
    by_cases hm0 : r.minutesBefore = 0
  · rw [if_pos hm0] at hmB
    simp [hen, hn, hokF, hguardF, hm0]
    split
    · exact ⟨_, _, rfl⟩
    · rename_i hbad
      exfalso
      omega
  · rw [if_neg hm0] at hmB
    simp [hen, hn, hokF, hguardF, hm0]
    split
    · exact ⟨_, _, rfl⟩
    · rename_i hbad
      exfalso
      omega
  · rw [if_pos hm0] at hmB
    simp [hen, hn, hokF, hguardF, hm0]
    omega
  · rw [if_neg hm0] at hmB
    simp [hen, hn, hokF, hguardF, hm0]
    omega

/-- C2: for an enabled subscription with a successfully fetched, non-empty
block list, a finite next change, a watermark strictly below the computed
event time and a 6-minute window, the dispatcher sends exactly when the
clock lies in `[alertUtcMs, alertUtcMs + 360000)`, where
`alertUtcMs = eventUtcMs - minutesBefore*60000`. -/
theorem processOneSubscription_firing_window (hash : String → String)
    (env : Env) (r : SubRec) (now : NowInfo) (fres : FetchRes)
    (n alertMs : Int)
    (hen : r.enabled = true) (hok : fres.ok = true) (hbl : fres.blocks ≠ [])
    (h6 : alertWindowMin env = 6)
    (hn : (computeStatus fres.blocks now.minutes).nextChangeMin = some n)
    (hwm : r.lastNotifiedEventUtcMs < eventUtcMsOf now n)
    (ha : alertMs = eventUtcMsOf now n -
      (if r.minutesBefore = 0 then alertMinutesBefore env
       else r.minutesBefore) * 60000) :
    (alertMs ≤ now.nowUtcMs ∧ now.nowUtcMs < alertMs + 360000 →
      sentOf (processOneSubscription hash env (some r) now (.ok fres)) = true ∧
      sendsOf (processOneSubscription hash env (some r) now (.ok fres)) ≠ []) ∧
    (¬ (alertMs ≤ now.nowUtcMs ∧ now.nowUtcMs < alertMs + 360000) →
      sentOf (processOneSubscription hash env (some r) now (.ok fres)) = false ∧
      sendsOf (processOneSubscription hash env (some r) now (.ok fres)) = []) := by
  have hokF : ¬ (fres.ok = false ∨ fres.blocks = []) := by
    push_neg
    exact ⟨by simp [hok], hbl⟩
  have hguardF : ¬ (r.lastNotifiedEventUtcMs ≠ 0 ∧
      r.lastNotifiedEventUtcMs ≥ eventUtcMsOf now n) := by
    push_neg
    intro _
    omega
  generalize hq : (if r.minutesBefore = 0 then alertMinutesBefore env
    else r.minutesBefore) = q at ha
  obtain ⟨hpos, hneg⟩ := processOneSubscription_eval hash env r now fres n q
    hen hokF hn hguardF hq.symm
  constructor <;> intro hwin
  · obtain ⟨msg, puts, heq⟩ := hpos (by rw [h6]; omega)
    rw [heq]
    exact ⟨rfl, by simp [sendsOf]⟩
  · have heq := hneg (by rw [h6]; omega)
    rw [heq]
    exact ⟨rfl, rfl⟩

theorem processOneSubscription_firing_window_witness :
    ((6000000 : Int) ≤ 6000000 ∧ (6000000 : Int) < 6000000 + 360000) ∧
    sentOf (processOneSubscription hashId envD
        (some ⟨"t", "c", "u", "Kyiv", "Q", 20, true, 0, 0⟩)
        (uaLocalNow envD 6000000) (.ok ⟨true, blocksW⟩)) = true ∧
    sendsOf (processOneSubscription hashId envD
        (some ⟨"t", "c", "u", "Kyiv", "Q", 20, true, 0, 0⟩)
        (uaLocalNow envD 6000000) (.ok ⟨true, blocksW⟩)) ≠ [] :=
  ⟨⟨by decide, by decide⟩,
   (processOneSubscription_firing_window hashId envD
      ⟨"t", "c", "u", "Kyiv", "Q", 20, true, 0, 0⟩
      (uaLocalNow envD 6000000) ⟨true, blocksW⟩ 240 6000000
      (by decide) (by decide) (by decide) (by decide) (by decide) (by decide)
      (by decide)).1 ⟨by decide, by decide⟩⟩

/-! ## C7: minute ranges of parsed blocks -/

/-- Range facts about a normalized block whose textual times are in range. -/
lemma normalizeBlock_range (r : Block)
    (hs : toMin r.start < 1440) (he : toMin r.end_ < 1440) :
    0 ≤ (normalizeBlock r).startMin ∧ (normalizeBlock r).startMin < 1440 ∧
    (normalizeBlock r).startMin ≤ (normalizeBlock r).endMin ∧
    (normalizeBlock r).endMin ≤ (normalizeBlock r).startMin + 1440 := by
  have h0s := toMin_nonneg r.start
  have h0e := toMin_nonneg r.end_
  unfold normalizeBlock
  dsimp only
  split <;> omega

/-- C7 counterexample: the time regex `\d{2}:\d{2}` also matches digit pairs
that are not clock times, so the parser emits a block with
`startMinute = 5940 ∉ [0, 1440)` and `endMinute < startMinute`. -/
theorem fetchedBlocks_invalid_time_counterexample :
    (fetchedBlocks "<li>99:00-00:10</li>").map
        (fun b => (b.startMin, b.endMin)) = [(5940, 1450)] ∧
    ¬ ((5940 : Int) < 1440) ∧ ¬ ((5940 : Int) ≤ 1450) := by
  exact ⟨by decide, by decide, by decide⟩

/-- C7 (amended): every block produced by the parser and the normalizer
whose textual times each denote fewer than 1440 minutes has
`startMinute ∈ [0, 1440)` and `endMinute ∈ [startMinute, startMinute + 1440]`. -/
theorem fetchedBlocks_minute_ranges (html : String) (b : NBlock)
    (hb : b ∈ fetchedBlocks html)
    (hs : toMin b.start < 1440) (he : toMin b.end_ < 1440) :
    0 ≤ b.startMin ∧ b.startMin < 1440 ∧ b.startMin ≤ b.endMin ∧
      b.endMin ≤ b.startMin + 1440 := by
  unfold fetchedBlocks at hb
  simp only [List.mem_map] at hb
  obtain ⟨r, _, rfl⟩ := hb
  exact normalizeBlock_range r (by simpa [normalizeBlock] using hs)
    (by simpa [normalizeBlock] using he)

theorem fetchedBlocks_minute_ranges_witness :
    (⟨"08:00", "10:00", none, 480, 600⟩ : NBlock) ∈
      fetchedBlocks "<li>08:00-10:00</li>" ∧
    (0 : Int) ≤ 480 ∧ (480 : Int) < 1440 ∧ (480 : Int) ≤ 600 ∧
      (600 : Int) ≤ 480 + 1440 :=
  ⟨by decide,
   fetchedBlocks_minute_ranges "<li>08:00-10:00</li>"
     ⟨"08:00", "10:00", none, 480, 600⟩ (by decide) (by decide) (by decide)⟩

/-! ## C8: near-duplicate suppression in the loose scan -/

/-- Final `(lastKey, lastPos)` state of the near-duplicate suppression after
processing a list of matches (proof helper mirroring `dedupGo`). -/
def dedupState : Option String → Int → List LooseM → Option String × Int
  | lk, lp, [] => (lk, lp)
  | lk, lp, m :: ms =>
    if some (sigKey m) = lk ∧ (m.pos : Int) - lp < 40 then dedupState lk lp ms
    else dedupState (some (sigKey m)) (m.pos : Int) ms

lemma dedupGo_append (lk : Option String) (lp : Int)
    (l1 l2 : List LooseM) :
    dedupGo lk lp (l1 ++ l2) =
      dedupGo lk lp l1 ++
        dedupGo (dedupState lk lp l1).1 (dedupState lk lp l1).2 l2 := by
  induction l1 generalizing lk lp with
  | nil => simp [dedupGo, dedupState]
  | cons m ms ih =>
    by_cases hc : some (sigKey m) = lk ∧ (m.pos : Int) - lp < 40 <;>
      simp [dedupGo, dedupState, hc, ih]

/-- After processing a nonempty list, `lastKey` is the signature of its last
element (whether or not that element was kept). -/
lemma dedupState_fst (lk : Option String) (lp : Int) (l : List LooseM) :
    (dedupState lk lp l).1 =
      (match l.getLast? with
       | some x => some (sigKey x)
       | none => lk) := by
  induction l generalizing lk lp with
  | nil => rfl
  | cons m ms ih =>
    cases ms with
    | nil =>
      by_cases hc : some (sigKey m) = lk ∧ (m.pos : Int) - lp < 40
      · simp only [dedupState, if_pos hc]
        simpa using hc.1.symm
      · simp only [dedupState, if_neg hc]
        rfl
    | cons m2 ms2 =>
      have hgl : (m :: m2 :: ms2).getLast? = (m2 :: ms2).getLast? := by
        simp [List.getLast?]
      by_cases hc : some (sigKey m) = lk ∧ (m.pos : Int) - lp < 40
      · have hstep : dedupState lk lp (m :: m2 :: ms2) =
            dedupState lk lp (m2 :: ms2) := by
          simp only [dedupState, if_pos hc]
        rw [hstep, ih, hgl]
      · have hstep : dedupState lk lp (m :: m2 :: ms2) =
            dedupState (some (sigKey m)) (m.pos : Int) (m2 :: ms2) := by
          simp only [dedupState, if_neg hc]
        obtain ⟨x, hx⟩ := Option.isSome_iff_exists.mp
          (by simp [List.getLast?_isSome] : (m2 :: ms2).getLast?.isSome)
        rw [hstep, ih, hgl, hx]

lemma dedupGo_keep (lk : Option String) (lp : Int) (m : LooseM)
    (l : List LooseM)
    (h : ¬ (some (sigKey m) = lk ∧ (m.pos : Int) - lp < 40)) :
    dedupGo lk lp (m :: l) =
      blockOf m :: dedupGo (some (sigKey m)) (m.pos : Int) l := by
  simp only [dedupGo]
  rw [if_neg h]

lemma dedupGo_skip_run (sig : String) (p : Int) (run post : List LooseM)
    (hrun : ∀ x ∈ run, sigKey x = sig ∧ p ≤ (x.pos : Int) ∧
      (x.pos : Int) - p < 40) :
    dedupGo (some sig) p (run ++ post) = dedupGo (some sig) p post := by
  induction run with
  | nil => rfl
  | cons x xs ih =>
    obtain ⟨h1, _, h3⟩ := hrun x (List.mem_cons_self x xs)
    rw [List.cons_append]
    simp only [dedupGo]
    rw [if_pos ⟨by rw [h1], h3⟩]
    exact ih fun y hy => hrun y (List.mem_cons_of_mem x hy)

/-- C8: in the loose/extended scan, a maximal group of consecutive raw
matches sharing one `(start, end, state)` signature and lying within the
40-character suppression window of the first of the group contributes only
that first match to the output: the result equals what the scan produces
with the repeats absent, and the first match is kept. -/
theorem looseScan_drops_near_duplicates (html : String)
    (pre run post : List LooseM) (m : LooseM)
    (hdecomp : looseMatches html.toList = pre ++ m :: run ++ post)
    (hpre : ∀ x, pre.getLast? = some x → sigKey x ≠ sigKey m)
    (hrun : ∀ x ∈ run, sigKey x = sigKey m ∧ (m.pos : Int) ≤ x.pos ∧
      (x.pos : Int) - (m.pos : Int) < 40) :
    looseScan html = dedupGo none (-9999) (pre ++ m :: post) ∧
    blockOf m ∈ looseScan html := by
  have hkey : ¬ (some (sigKey m) = (dedupState none (-9999) pre).1 ∧
      ((m.pos : Int) - (dedupState none (-9999) pre).2 < 40)) := by
    rintro ⟨h1, -⟩
    rw [dedupState_fst] at h1
    cases hgl : pre.getLast? with
    | none => rw [hgl] at h1; cases h1
    | some x =>
      rw [hgl] at h1
      injection h1 with h1
      exact hpre x hgl h1.symm
  have hout : looseScan html =
      dedupGo none (-9999) pre ++
        (blockOf m ::
          dedupGo (some (sigKey m)) (m.pos : Int) post) := by
    unfold looseScan
    rw [hdecomp, List.append_assoc, List.cons_append, dedupGo_append,
      dedupGo_keep _ _ _ _ hkey,
      dedupGo_skip_run (sigKey m) (m.pos : Int) run post hrun]
  constructor
  · rw [hout]
    rw [dedupGo_append, dedupGo_keep _ _ _ _ hkey]
  · rw [hout]
    exact List.mem_append_right _ (List.mem_cons_self _ _)

theorem looseScan_drops_near_duplicates_witness :
    (looseMatches "00:00-01:00 00:00-01:00".toList =
      [] ++ (⟨0, "00:00", "01:00", none⟩ : LooseM) ::
        [⟨12, "00:00", "01:00", none⟩] ++ []) ∧
    looseScan "00:00-01:00 00:00-01:00" =
      dedupGo none (-9999)
        ([] ++ (⟨0, "00:00", "01:00", none⟩ : LooseM) :: []) ∧
    blockOf ⟨0, "00:00", "01:00", none⟩ ∈
      looseScan "00:00-01:00 00:00-01:00" :=
  ⟨by decide,
   (looseScan_drops_near_duplicates "00:00-01:00 00:00-01:00" []
      [⟨12, "00:00", "01:00", none⟩] [] ⟨0, "00:00", "01:00", none⟩
      (by decide) (by intro x hx; simp at hx) (by decide)).1,
   (looseScan_drops_near_duplicates "00:00-01:00 00:00-01:00" []
      [⟨12, "00:00", "01:00", none⟩] [] ⟨0, "00:00", "01:00", none⟩
      (by decide) (by intro x hx; simp at hx) (by decide)).2⟩

/-! ## C9: dispatch loop isolation and cap -/

lemma runCronLoop_processedKeys (hash : String → String) (env : Env)
    (now : NowInfo) (store : String → Option (Option SubRec))
    (fetchO : String → Except Unit FetchRes) :
    ∀ (ks : List String) (p s : Nat),
      (runCronLoop hash env now store fetchO ks p s).processedKeys =
        (ks.filter (fun k => (store k).isSome)).take
          ((alertMaxPerCron env).toNat - p) := by
  intro ks
  induction ks with
  | nil => intro p s; simp [runCronLoop]
  | cons k ks ih =>
    intro p s
    simp only [runCronLoop]
    by_cases hp : (p : Int) ≥ alertMaxPerCron env
    · have h0 : (alertMaxPerCron env).toNat - p = 0 := by omega
      rw [if_pos hp, h0]
      simp
    · have h1 : (alertMaxPerCron env).toNat - p =
          ((alertMaxPerCron env).toNat - (p + 1)) + 1 := by omega
      rw [if_neg hp]
      cases hst : store k with
      | none => rw [ih]; simp [hst]
      | some rec? =>
        dsimp only
        rw [ih (p + 1)]
        simp [hst, h1]

/-- C9: in one cron invocation the keys handed to the per-subscription
evaluation are exactly the listed keys whose raw records exist, in listing
order, truncated at the `ALERT_MAX_PER_CRON` cap — for every pattern of
per-subscription fetch failures or thrown errors (`fetchO` is universally
quantified, so no failure aborts the loop); the cap defaults to 300. -/
theorem runCronAlerts_isolation_and_cap (hash : String → String) (env : Env)
    (now : NowInfo) (store : String → Option (Option SubRec))
    (fetchO : String → Except Unit FetchRes) (keys : List String) :
    (runCronAlerts hash env now store fetchO keys).processedKeys =
      (keys.filter (fun k => (store k).isSome)).take
        (alertMaxPerCron env).toNat ∧
    (runCronAlerts hash env now store fetchO keys).processedKeys.length ≤
      (alertMaxPerCron env).toNat ∧
    alertMaxPerCron (fun _ => none) = 300 := by
  have h := runCronLoop_processedKeys hash env now store fetchO keys 0 0
  refine ⟨by simpa [runCronAlerts] using h, ?_, rfl⟩
  rw [show (runCronAlerts hash env now store fetchO keys) =
    runCronLoop hash env now store fetchO keys 0 0 from rfl, h]
  simp [List.length_take]

/-! ## C10: re-selection resets the watermark -/

/-- C10: `upsertSubscription` with alerts enabled unconditionally overwrites
the stored record with `lastNotifiedEventUtcMs = 0` and `enabled = true`,
whatever record (and watermark) was stored before; consequently a just
re-created subscription fires again for an event time inside the firing
window, even one the subscriber was already notified about. -/
theorem upsertSubscription_resets_watermark (hash : String → String)
    (env : Env) (token chatId : String) (sel : Sel) (nowMs : Int)
    (store : String → Option SubRec) :
    (upsertSubscription hash env token chatId sel true nowMs store).store
        (subKey token chatId (hash sel.url)) =
      some ⟨token, chatId, sel.url, sel.cityName, sel.queueName,
        alertMinutesBefore env, true, 0, nowMs⟩ ∧
    (∀ (now : NowInfo) (fres : FetchRes) (n : Int),
      fres.ok = true → fres.blocks ≠ [] →
      (computeStatus fres.blocks now.minutes).nextChangeMin = some n →
      eventUtcMsOf now n - alertMinutesBefore env * 60000 ≤ now.nowUtcMs →
      now.nowUtcMs < eventUtcMsOf now n - alertMinutesBefore env * 60000 +
        alertWindowMin env * 60000 →
      sentOf (processOneSubscription hash env
        (some ⟨token, chatId, sel.url, sel.cityName, sel.queueName,
          alertMinutesBefore env, true, 0, nowMs⟩) now (.ok fres)) = true) := by
  constructor
  · unfold upsertSubscription
    simp
  · intro now fres n hok hbl hn h1 h2
    have hokF : ¬ (fres.ok = false ∨ fres.blocks = []) := by
      push_neg
      exact ⟨by simp [hok], hbl⟩
    have hguardF :
        ¬ ((⟨token, chatId, sel.url, sel.cityName, sel.queueName,
            alertMinutesBefore env, true, 0, nowMs⟩ :
              SubRec).lastNotifiedEventUtcMs ≠ 0 ∧
          (⟨token, chatId, sel.url, sel.cityName, sel.queueName,
            alertMinutesBefore env, true, 0, nowMs⟩ :
              SubRec).lastNotifiedEventUtcMs ≥ eventUtcMsOf now n) := by
      rintro ⟨hne, -⟩
      exact hne rfl
    obtain ⟨hpos, -⟩ := processOneSubscription_eval hash env
      ⟨token, chatId, sel.url, sel.cityName, sel.queueName,
        alertMinutesBefore env, true, 0, nowMs⟩ now fres n
      (alertMinutesBefore env) rfl hokF hn hguardF (ite_self _).symm
    obtain ⟨msg, puts, heq⟩ := hpos ⟨h1, h2⟩
    rw [heq]
    rfl

theorem upsertSubscription_resets_watermark_witness :
    ((upsertSubscription hashId envD "t" "c" ⟨"K", "Q", "u"⟩ true 0
        (fun k => if k = subKey "t" "c" (hashId "u")
          then some ⟨"t", "c", "u", "K", "Q", 20, true, 7200000, 0⟩
          else none)).store (subKey "t" "c" (hashId "u")) =
      some ⟨"t", "c", "u", "K", "Q", 20, true, 0, 0⟩) ∧
    sentOf (processOneSubscription hashId envD
      (some ⟨"t", "c", "u", "K", "Q", 20, true, 0, 0⟩)
      (uaLocalNow envD 6000000) (.ok ⟨true, blocksW⟩)) = true :=
  ⟨(upsertSubscription_resets_watermark hashId envD "t" "c" ⟨"K", "Q", "u"⟩ 0
      (fun k => if k = subKey "t" "c" (hashId "u")
        then some ⟨"t", "c", "u", "K", "Q", 20, true, 7200000, 0⟩
        else none)).1,
   (upsertSubscription_resets_watermark hashId envD "t" "c" ⟨"K", "Q", "u"⟩ 0
      (fun k => if k = subKey "t" "c" (hashId "u")
        then some ⟨"t", "c", "u", "K", "Q", 20, true, 7200000, 0⟩
        else none)).2
     (uaLocalNow envD 6000000) ⟨true, blocksW⟩ 240 rfl (by decide) (by decide)
     (by decide) (by decide)⟩

end Worker
